import Mathlib

/-!
Shallow embedding of the Ambari configuration-audit utility (`audit.py`).

Python dictionaries are modelled as association lists (`List (String × β)`)
whose list order is the dictionary's key-iteration order; a well-formed
dictionary has no duplicate keys (`Nodup` on the key list).  JSON bodies that
may fail to parse are modelled with `Option` (`none` = the `r.json()` call
raises), and Python exceptions become `Except String` errors.
-/

namespace AmbariAudit

/-- Python dictionary lookup `m[k]` (and the membership test `k in m`,
via `Option.isSome`): first binding of key `k` in iteration order. -/
def dlookup {β : Type} : List (String × β) → String → Option β
  | [], _ => none
  | (k', v) :: rest, k => if k' = k then some v else dlookup rest k

/-- One fully retrieved configuration revision: the `version` field and the
`properties` dictionary of the JSON item appended by `_retrieve_configs`. -/
structure ConfigSnapshot where
  version : Nat
  properties : List (String × String)
  deriving DecidableEq

/-- One audit-event dictionary built by `_config_diff`.  `old_value` is
present (`some`) exactly when the source dict carries an `old_value` key. -/
structure AuditEvent where
  version : Nat
  type : String
  action : String
  key : String
  value : String
  old_value : Option String
  deriving DecidableEq

/-- First inner loop of `_config_diff`: traverse the snapshot's properties,
emitting `ADDED` for keys absent from `prev_config` and `CHANGED` for keys
whose value differs from `prev_config[key]`. -/
def diffStepAC (config_id : String) (prev_config : List (String × String))
    (conf : ConfigSnapshot) : List AuditEvent :=
  conf.properties.filterMap fun kv =>
    match dlookup prev_config kv.1 with
    | none => some ⟨conf.version, config_id, "ADDED", kv.1, kv.2, none⟩
    | some pv =>
        if pv ≠ kv.2 then
          some ⟨conf.version, config_id, "CHANGED", kv.1, kv.2, some pv⟩
        else none

/-- Second inner loop of `_config_diff`: traverse `prev_config`, emitting
`REMOVED` for keys no longer present in the snapshot's properties. -/
def diffStepR (config_id : String) (prev_config : List (String × String))
    (conf : ConfigSnapshot) : List AuditEvent :=
  prev_config.filterMap fun pkv =>
    match dlookup conf.properties pkv.1 with
    | none => some ⟨conf.version, config_id, "REMOVED", pkv.1, pkv.2, none⟩
    | some _ => none

/-- All events one loop iteration of `_config_diff` appends for a single
snapshot: added/changed events first, then removed events. -/
def auditGroup (config_id : String) (prev_config : List (String × String))
    (conf : ConfigSnapshot) : List AuditEvent :=
  diffStepAC config_id prev_config conf ++ diffStepR config_id prev_config conf

/-- The loop of `_config_diff`, made explicit in the `prev_config`
accumulator: after each snapshot, `prev_config` is replaced wholesale by the
snapshot's property dictionary. -/
def _config_diff (config_id : String) :
    List ConfigSnapshot → List (String × String) → List AuditEvent
  | [], _ => []
  | conf :: rest, prev_config =>
      auditGroup config_id prev_config conf
        ++ _config_diff config_id rest conf.properties

/-- The call `_config_diff` receives from `execute`: `prev_config` starts
empty. -/
def computeAudit (config_id : String) (configs : List ConfigSnapshot) :
    List AuditEvent :=
  _config_diff config_id configs []

/-- Per-snapshot event groups of `_config_diff`, in input order. -/
def auditGroups (config_id : String) :
    List ConfigSnapshot → List (String × String) → List (List AuditEvent)
  | [], _ => []
  | conf :: rest, prev_config =>
      auditGroup config_id prev_config conf
        :: auditGroups config_id rest conf.properties

/-- The renderer `_get_audit_log_string`: a falsy argument (`None`/empty
dict, modelled `none`) renders as the empty string; an event whose action
is not `CHANGED` uses the short template; a `CHANGED` event reads its
`old_value` field (a missing `old_value` would raise `KeyError`). -/
def _get_audit_log_string : Option AuditEvent → Except String String
  | none => .ok ""
  | some text =>
      if text.action ≠ "CHANGED" then
        .ok (text.type ++ ": version " ++ toString text.version ++ " - "
          ++ text.action ++ " - " ++ text.key ++ " - " ++ text.value)
      else
        match text.old_value with
        | some ov =>
            .ok (text.type ++ ": version " ++ toString text.version ++ " - "
              ++ text.action ++ " - " ++ text.key ++ " - " ++ ov ++ " => "
              ++ text.value)
        | none => .error "KeyError"

/-- The per-line rendering loop of `_finalize`: render each event in order;
an exception while rendering a line aborts the remaining output. -/
def renderLog : List AuditEvent → Except String (List String)
  | [] => .ok []
  | e :: rest =>
      match _get_audit_log_string (some e) with
      | .error msg => .error msg
      | .ok line =>
          match renderLog rest with
          | .error msg => .error msg
          | .ok lines => .ok (line :: lines)

/-- One element of the version-listing response's `items` array: its numeric
JSON fields (among them, normally, `version`) and its `href`. -/
structure VersionItem where
  fields : List (String × Nat)
  href : String
  deriving DecidableEq

/-- Parsed JSON body of the version-listing response; `items = none` models
a body without an `items` key. -/
structure VersionsBody where
  items : Option (List VersionItem)
  deriving DecidableEq

/-- An HTTP response: status code plus the parsed JSON body, where
`body = none` models a body on which `r.json()` raises `ValueError`. -/
structure HttpResponse (β : Type) where
  status_code : Nat
  body : Option β
  deriving DecidableEq

/-- Parsed JSON body of a per-version configuration response; the code reads
`res['items'][0]`, so `items = none` models a missing `items` key. -/
structure ConfigsBody where
  items : Option (List ConfigSnapshot)
  deriving DecidableEq

/-- The sort key used by `_retrieve_config_versions` (`self.sort_version_by`,
set in the constructor and never changed). -/
def sort_version_by : String := "version"

/-- The decoration pass of Python's `sorted(items, key=...)`: evaluate the
key function on every item in order; a missing key raises `KeyError`. -/
def keyedList (sortKey : String) :
    List VersionItem → Except String (List (Nat × VersionItem))
  | [] => .ok []
  | it :: rest =>
      match dlookup it.fields sortKey with
      | none => .error "KeyError"
      | some v =>
          match keyedList sortKey rest with
          | .error msg => .error msg
          | .ok ds => .ok ((v, it) :: ds)

/-- Python's `sorted(items, key=lambda item: item[sortKey])`: decorate with
the key, stable-sort ascending by it, undecorate. -/
def sortedByKey (sortKey : String) (items : List VersionItem) :
    Except String (List VersionItem) :=
  match keyedList sortKey items with
  | .error msg => .error msg
  | .ok keyed => .ok ((keyed.mergeSort fun a b => Nat.ble a.1 b.1).map Prod.snd)

/-- The listing step `_retrieve_config_versions` on an already-received
response: parse the
body (`ValueError` aborts), and only when a non-empty `items` array is
present sort it; otherwise `config_versions` keeps its initial `[]`.  The
HTTP status code is never inspected. -/
def _retrieve_config_versions (r : HttpResponse VersionsBody) :
    Except String (List VersionItem) :=
  match r.body with
  | none => .error "ValueError"
  | some res =>
      match res.items with
      | some items =>
          if items.length ≠ 0 then sortedByKey sort_version_by items
          else .ok []
      | none => .ok []

/-- The fetch loop `_retrieve_configs` on the already-received per-version
responses, in
sorted-version order: a response with status other than 200 is skipped with
`continue`; otherwise the body is parsed (`ValueError` on malformed JSON)
and `res['items'][0]` is appended (`KeyError`/`IndexError` when absent). -/
def _retrieve_configs :
    List (HttpResponse ConfigsBody) → Except String (List ConfigSnapshot)
  | [] => .ok []
  | r :: rest =>
      if r.status_code ≠ 200 then _retrieve_configs rest
      else
        match r.body with
        | none => .error "ValueError"
        | some res =>
            match res.items with
            | none => .error "KeyError"
            | some [] => .error "IndexError"
            | some (snap :: _) =>
                match _retrieve_configs rest with
                | .error msg => .error msg
                | .ok more => .ok (snap :: more)

/-- The pipeline `execute`: list versions, fetch each version's
configuration via its
`href`, diff, and render the audit-log lines in order.  Any uncaught
exception in an earlier step aborts before the later steps run. -/
def execute (vr : HttpResponse VersionsBody)
    (fetch : String → HttpResponse ConfigsBody) (config_id : String) :
    Except String (List String) :=
  match _retrieve_config_versions vr with
  | .error msg => .error msg
  | .ok versions =>
      match _retrieve_configs (versions.map fun v => fetch v.href) with
      | .error msg => .error msg
      | .ok configs => renderLog (computeAudit config_id configs)

/-! ### Dictionary lemmas -/

theorem dlookup_isSome_of_mem {β : Type} {m : List (String × β)} {k : String} {v : β}
    (h : (k, v) ∈ m) : (dlookup m k).isSome := by
  induction m with
  | nil => simp at h
  | cons p rest ih =>
      obtain ⟨k', v'⟩ := p
      simp only [dlookup]
      by_cases hk : k' = k
      · simp [hk]
      · simp only [if_neg hk]
        rcases List.mem_cons.mp h with h1 | h2
        · exact absurd ((Prod.mk.injEq _ _ _ _).mp h1.symm).1 hk
        · exact ih h2

theorem mem_of_dlookup_eq_some {β : Type} {m : List (String × β)} {k : String} {v : β}
    (h : dlookup m k = some v) : (k, v) ∈ m := by
  induction m with
  | nil => simp [dlookup] at h
  | cons p rest ih =>
      obtain ⟨k', v'⟩ := p
      simp only [dlookup] at h
      by_cases hk : k' = k
      · rw [if_pos hk] at h
        subst hk
        cases Option.some.inj h
        exact List.mem_cons_self _ _
      · rw [if_neg hk] at h
        exact List.mem_cons_of_mem _ (ih h)

theorem dlookup_eq_some_of_mem_nodup {β : Type} {m : List (String × β)}
    (hn : (m.map Prod.fst).Nodup) {k : String} {v : β} (h : (k, v) ∈ m) :
    dlookup m k = some v := by
  induction m with
  | nil => simp at h
  | cons p rest ih =>
      obtain ⟨k', v'⟩ := p
      simp only [List.map_cons, List.nodup_cons] at hn
      simp only [dlookup]
      rcases List.mem_cons.mp h with h1 | h2
      · obtain ⟨hk, hv⟩ := (Prod.mk.injEq _ _ _ _).mp h1
        simp [hk.symm, hv]
      · by_cases hk : k' = k
        · exact absurd (hk ▸ (List.mem_map.mpr ⟨(k, v), h2, rfl⟩)) hn.1
        · rw [if_neg hk]
          exact ih hn.2 h2

theorem val_unique_of_nodup {β : Type} {m : List (String × β)}
    (hn : (m.map Prod.fst).Nodup) {k : String} {v₁ v₂ : β}
    (h₁ : (k, v₁) ∈ m) (h₂ : (k, v₂) ∈ m) : v₁ = v₂ := by
  have e₁ := dlookup_eq_some_of_mem_nodup hn h₁
  have e₂ := dlookup_eq_some_of_mem_nodup hn h₂
  rw [e₁] at e₂
  exact Option.some.inj e₂

/-! ### Membership in the diff-step event lists -/

theorem mem_diffStepAC {config_id : String} {prev_config : List (String × String)}
    {conf : ConfigSnapshot} {e : AuditEvent} :
    e ∈ diffStepAC config_id prev_config conf
      ↔ ∃ kv, kv ∈ conf.properties ∧
          ((dlookup prev_config kv.1 = none
              ∧ e = ⟨conf.version, config_id, "ADDED", kv.1, kv.2, none⟩)
            ∨ (∃ pv, dlookup prev_config kv.1 = some pv ∧ pv ≠ kv.2
              ∧ e = ⟨conf.version, config_id, "CHANGED", kv.1, kv.2, some pv⟩)) := by
  unfold diffStepAC
  rw [List.mem_filterMap]
  constructor
  · rintro ⟨kv, hmem, hf⟩
    refine ⟨kv, hmem, ?_⟩
    cases hdl : dlookup prev_config kv.1 with
    | none =>
        left
        simp only [hdl] at hf
        exact ⟨rfl, (Option.some.inj hf).symm⟩
    | some pv =>
        right
        simp only [hdl] at hf
        by_cases hne : pv = kv.2
        · simp [hne] at hf
        · rw [if_pos hne] at hf
          exact ⟨pv, rfl, hne, (Option.some.inj hf).symm⟩
  · rintro ⟨kv, hmem, h | h⟩
    · obtain ⟨hdl, rfl⟩ := h
      exact ⟨kv, hmem, by simp [hdl]⟩
    · obtain ⟨pv, hdl, hne, rfl⟩ := h
      exact ⟨kv, hmem, by simp [hdl, hne]⟩

theorem mem_diffStepR {config_id : String} {prev_config : List (String × String)}
    {conf : ConfigSnapshot} {e : AuditEvent} :
    e ∈ diffStepR config_id prev_config conf
      ↔ ∃ kv, kv ∈ prev_config ∧ dlookup conf.properties kv.1 = none
          ∧ e = ⟨conf.version, config_id, "REMOVED", kv.1, kv.2, none⟩ := by
  unfold diffStepR
  rw [List.mem_filterMap]
  constructor
  · rintro ⟨kv, hmem, hf⟩
    refine ⟨kv, hmem, ?_⟩
    cases hdl : dlookup conf.properties kv.1 with
    | none =>
        simp only [hdl] at hf
        exact ⟨rfl, (Option.some.inj hf).symm⟩
    | some pv => simp [hdl] at hf
  · rintro ⟨kv, hmem, hdl, rfl⟩
    exact ⟨kv, hmem, by simp [hdl]⟩

/-- C1: the diff engine processes snapshots in sequence against a `previous`
mapping initialized empty; for each snapshot it emits exactly an ADDED event
for every key absent from `previous` (with its new value), a CHANGED event
for every key present in both with a differing value (with new value and
old_value = previous value), no event for a key whose value is equal, a
REMOVED event for every key of `previous` absent from the snapshot (with the
previous value); then `previous` is replaced wholesale by the snapshot's
mapping. -/
theorem c1_diff_engine_exact (config_id : String)
    (prev_config : List (String × String)) (conf : ConfigSnapshot)
    (rest : List ConfigSnapshot)
    (hc : (conf.properties.map Prod.fst).Nodup) :
    _config_diff config_id (conf :: rest) prev_config
        = (diffStepAC config_id prev_config conf
            ++ diffStepR config_id prev_config conf)
          ++ _config_diff config_id rest conf.properties
    ∧ (∀ k v, (⟨conf.version, config_id, "ADDED", k, v, none⟩ : AuditEvent)
          ∈ diffStepAC config_id prev_config conf
        ↔ (k, v) ∈ conf.properties ∧ dlookup prev_config k = none)
    ∧ (∀ k v ov,
        (⟨conf.version, config_id, "CHANGED", k, v, some ov⟩ : AuditEvent)
          ∈ diffStepAC config_id prev_config conf
        ↔ (k, v) ∈ conf.properties ∧ dlookup prev_config k = some ov ∧ ov ≠ v)
    ∧ (∀ k v, (⟨conf.version, config_id, "REMOVED", k, v, none⟩ : AuditEvent)
          ∈ diffStepR config_id prev_config conf
        ↔ (k, v) ∈ prev_config ∧ dlookup conf.properties k = none)
    ∧ (∀ k v, dlookup prev_config k = some v → (k, v) ∈ conf.properties →
        ∀ e ∈ auditGroup config_id prev_config conf, e.key ≠ k) := by
  refine ⟨rfl, ?_, ?_, ?_, ?_⟩
  · intro k v
    rw [mem_diffStepAC]
    constructor
    · rintro ⟨kv, hmem, ⟨hdl, he⟩ | ⟨pv, hdl, hne, he⟩⟩
      · obtain ⟨-, -, -, hk, hv, -⟩ := (AuditEvent.mk.injEq ..).mp he
        subst hk
        subst hv
        exact ⟨hmem, hdl⟩
      · exact absurd ((AuditEvent.mk.injEq ..).mp he).2.2.1 (by decide)
    · rintro ⟨hmem, hdl⟩
      exact ⟨(k, v), hmem, Or.inl ⟨hdl, rfl⟩⟩
  · intro k v ov
    rw [mem_diffStepAC]
    constructor
    · rintro ⟨kv, hmem, ⟨hdl, he⟩ | ⟨pv, hdl, hne, he⟩⟩
      · exact absurd ((AuditEvent.mk.injEq ..).mp he).2.2.1 (by decide)
      · obtain ⟨-, -, -, hk, hv, hov⟩ := (AuditEvent.mk.injEq ..).mp he
        subst hk
        subst hv
        cases Option.some.inj hov
        exact ⟨hmem, hdl, hne⟩
    · rintro ⟨hmem, hdl, hne⟩
      exact ⟨(k, v), hmem, Or.inr ⟨ov, hdl, hne, rfl⟩⟩
  · intro k v
    rw [mem_diffStepR]
    constructor
    · rintro ⟨kv, hmem, hdl, he⟩
      obtain ⟨-, -, -, hk, hv, -⟩ := (AuditEvent.mk.injEq ..).mp he
      subst hk
      subst hv
      exact ⟨hmem, hdl⟩
    · rintro ⟨hmem, hdl⟩
      exact ⟨(k, v), hmem, hdl, rfl⟩
  · intro k v hdl hmem e he
    rcases List.mem_append.mp he with hAC | hR
    · rcases mem_diffStepAC.mp hAC with ⟨kv, hkv, ⟨hdl', rfl⟩ | ⟨pv, hdl', hne, rfl⟩⟩
      · intro hkey
        have hk1 : kv.1 = k := hkey
        rw [hk1, hdl] at hdl'
        exact Option.noConfusion hdl'
      · intro hkey
        have hk1 : kv.1 = k := hkey
        rw [hk1, hdl] at hdl'
        cases Option.some.inj hdl'
        have hv2 : kv.2 = v := by
          have hkv' : (k, kv.2) ∈ conf.properties := by
            rw [← hk1]
            exact hkv
          exact val_unique_of_nodup hc hkv' hmem
        rw [hv2] at hne
        exact hne rfl
    · rcases mem_diffStepR.mp hR with ⟨kv, hkv, hdl', rfl⟩
      intro hkey
      have hk1 : kv.1 = k := hkey
      rw [hk1] at hdl'
      have := dlookup_isSome_of_mem hmem
      rw [hdl'] at this
      exact Bool.noConfusion this

theorem c1_diff_engine_exact_witness :
    ((([("a", "2"), ("b", "5")] : List (String × String)).map Prod.fst).Nodup)
    ∧ ((⟨2, "t", "CHANGED", "a", "2", some "1"⟩ : AuditEvent)
        ∈ diffStepAC "t" [("a", "1"), ("c", "3")] ⟨2, [("a", "2"), ("b", "5")]⟩
      ↔ ("a", "2") ∈ ([("a", "2"), ("b", "5")] : List (String × String))
        ∧ dlookup [("a", "1"), ("c", "3")] "a" = some "1" ∧ "1" ≠ "2") :=
  ⟨by decide,
    (c1_diff_engine_exact "t" [("a", "1"), ("c", "3")]
      ⟨2, [("a", "2"), ("b", "5")]⟩ [] (by decide)).2.2.1 "a" "2" "1"⟩

/-! ### Grouping helpers -/

theorem config_diff_eq_join (config_id : String) :
    ∀ (configs : List ConfigSnapshot) (prev_config : List (String × String)),
      _config_diff config_id configs prev_config
        = (auditGroups config_id configs prev_config).flatten
  | [], _ => rfl
  | conf :: rest, prev_config => by
      simp only [_config_diff, auditGroups, List.flatten_cons]
      rw [config_diff_eq_join config_id rest conf.properties]

theorem map_key_filterMap_sublist {β : Type}
    (f : String × β → Option AuditEvent) (l : List (String × β))
    (hf : ∀ kv e, f kv = some e → e.key = kv.1) :
    ((l.filterMap f).map AuditEvent.key).Sublist (l.map Prod.fst) := by
  induction l with
  | nil => simp
  | cons kv rest ih =>
      cases hfe : f kv with
      | none =>
          rw [List.filterMap_cons_none hfe, List.map_cons]
          exact ih.cons kv.1
      | some e =>
          rw [List.filterMap_cons_some hfe, List.map_cons, List.map_cons,
            hf kv e hfe]
          exact ih.cons₂ kv.1

/-- C2: the audit log is the concatenation of per-snapshot groups in input
(ascending-version) order; within each group every ADDED/CHANGED event (keys
in snapshot key-iteration order) precedes every REMOVED event (keys in
previous-mapping key-iteration order). -/
theorem c2_grouping_and_order (config_id : String) (configs : List ConfigSnapshot) :
    computeAudit config_id configs = (auditGroups config_id configs []).flatten
    ∧ ∀ prev_config conf,
        auditGroup config_id prev_config conf
            = diffStepAC config_id prev_config conf
              ++ diffStepR config_id prev_config conf
        ∧ (∀ e ∈ diffStepAC config_id prev_config conf,
            e.action = "ADDED" ∨ e.action = "CHANGED")
        ∧ (∀ e ∈ diffStepR config_id prev_config conf, e.action = "REMOVED")
        ∧ ((diffStepAC config_id prev_config conf).map AuditEvent.key).Sublist
            (conf.properties.map Prod.fst)
        ∧ ((diffStepR config_id prev_config conf).map AuditEvent.key).Sublist
            (prev_config.map Prod.fst) := by
  refine ⟨config_diff_eq_join config_id configs [], ?_⟩
  intro prev_config conf
  refine ⟨rfl, ?_, ?_, ?_, ?_⟩
  · intro e he
    rcases mem_diffStepAC.mp he with ⟨kv, -, ⟨-, rfl⟩ | ⟨pv, -, -, rfl⟩⟩
    · exact Or.inl rfl
    · exact Or.inr rfl
  · intro e he
    rcases mem_diffStepR.mp he with ⟨kv, -, -, rfl⟩
    rfl
  · refine map_key_filterMap_sublist _ _ ?_
    intro kv e hfe
    cases hdl : dlookup prev_config kv.1 with
    | none =>
        simp only [hdl] at hfe
        cases Option.some.inj hfe
        rfl
    | some pv =>
        simp only [hdl] at hfe
        by_cases hne : pv = kv.2
        · simp [hne] at hfe
        · rw [if_pos hne] at hfe
          cases Option.some.inj hfe
          rfl
  · refine map_key_filterMap_sublist _ _ ?_
    intro kv e hfe
    cases hdl : dlookup conf.properties kv.1 with
    | none =>
        simp only [hdl] at hfe
        cases Option.some.inj hfe
        rfl
    | some pv => simp [hdl] at hfe

/-! ### Stable-key helpers -/

theorem auditGroup_no_key_event (config_id k v : String)
    (prev_config : List (String × String)) (conf : ConfigSnapshot)
    (hprev : dlookup prev_config k = some v)
    (hcur : dlookup conf.properties k = some v)
    (hnod : (conf.properties.map Prod.fst).Nodup) :
    ∀ e ∈ auditGroup config_id prev_config conf, e.key ≠ k := by
  intro e he
  rcases List.mem_append.mp he with hAC | hR
  · rcases mem_diffStepAC.mp hAC with ⟨kv, hkv, ⟨hdl', rfl⟩ | ⟨pv, hdl', hne, rfl⟩⟩
    · intro hkey
      have hk1 : kv.1 = k := hkey
      rw [hk1, hprev] at hdl'
      exact Option.noConfusion hdl'
    · intro hkey
      have hk1 : kv.1 = k := hkey
      rw [hk1, hprev] at hdl'
      cases Option.some.inj hdl'
      have hkv' : (k, kv.2) ∈ conf.properties := by
        rw [← hk1]
        exact hkv
      have := dlookup_eq_some_of_mem_nodup hnod hkv'
      rw [hcur] at this
      exact hne (Option.some.inj this)
  · rcases mem_diffStepR.mp hR with ⟨kv, hkv, hdl', rfl⟩
    intro hkey
    have hk1 : kv.1 = k := hkey
    rw [hk1, hcur] at hdl'
    exact Option.noConfusion hdl'

theorem no_key_events_of_stable (config_id k v : String) :
    ∀ (configs : List ConfigSnapshot) (prev_config : List (String × String)),
      dlookup prev_config k = some v →
      (∀ s ∈ configs, dlookup s.properties k = some v) →
      (∀ s ∈ configs, (s.properties.map Prod.fst).Nodup) →
      ∀ e ∈ _config_diff config_id configs prev_config, e.key ≠ k
  | [], _, _, _, _, e, he => by simp [_config_diff] at he
  | conf :: rest, prev_config, hprev, hall, hnod, e, he => by
      rcases List.mem_append.mp he with hg | hrec
      · exact auditGroup_no_key_event config_id k v prev_config conf hprev
          (hall conf (List.mem_cons_self _ _))
          (hnod conf (List.mem_cons_self _ _)) e hg
      · exact no_key_events_of_stable config_id k v rest conf.properties
          (hall conf (List.mem_cons_self _ _))
          (fun s hs => hall s (List.mem_cons_of_mem _ hs))
          (fun s hs => hnod s (List.mem_cons_of_mem _ hs)) e hrec

theorem diffStepAC_nil (config_id : String) (conf : ConfigSnapshot) :
    diffStepAC config_id [] conf
      = conf.properties.map
          (fun kv => ⟨conf.version, config_id, "ADDED", kv.1, kv.2, none⟩) := by
  show conf.properties.filterMap
      (some ∘ fun kv =>
        (⟨conf.version, config_id, "ADDED", kv.1, kv.2, none⟩ : AuditEvent)) = _
  rw [List.filterMap_eq_map]

theorem filter_key_eq_of_nodup {β : Type} [DecidableEq β] :
    ∀ (m : List (String × β)), (m.map Prod.fst).Nodup →
      ∀ {k : String} {v : β}, dlookup m k = some v →
        m.filter (fun kv => kv.1 == k) = [(k, v)]
  | [], _, _, _, h => by simp [dlookup] at h
  | (k', v') :: rest, hn, k, v, h => by
      simp only [List.map_cons, List.nodup_cons] at hn
      simp only [dlookup] at h
      by_cases hk : k' = k
      · rw [if_pos hk] at h
        cases Option.some.inj h
        subst hk
        rw [List.filter_cons_of_pos (by simp)]
        have hrest : rest.filter (fun kv => kv.1 == k') = [] := by
          rw [List.filter_eq_nil_iff]
          intro kv hkv hbeq
          exact hn.1 (List.mem_map.mpr ⟨kv, hkv, (eq_of_beq hbeq)⟩)
        rw [hrest]
      · rw [if_neg hk] at h
        rw [List.filter_cons_of_neg (by simpa using fun hkk => hk hkk)]
        exact filter_key_eq_of_nodup rest hn.2 h

/-- C3 counterexample: in the one-snapshot sequence `[⟨1, [("a","1")]⟩]` the
key `a` maps to `"1"` in every snapshot, yet the audit log contains an event
for `a` (its initial ADDED), so a globally unchanged key does appear in the
log. -/
theorem c3_counterexample :
    (∀ s ∈ [(⟨1, [("a", "1")]⟩ : ConfigSnapshot)],
        dlookup s.properties "a" = some "1")
    ∧ ∃ e ∈ computeAudit "core-site" [⟨1, [("a", "1")]⟩], e.key = "a" := by
  decide

/-- C3 amended: for a key mapping to the same value in every snapshot of a
non-empty sequence (all snapshots having duplicate-free keys), the only
event for that key in the audit log is the single ADDED event of the first
snapshot; in particular no CHANGED or REMOVED event for it ever appears. -/
theorem c3_amended_stable_key (config_id k v : String) (c : ConfigSnapshot)
    (rest : List ConfigSnapshot)
    (hall : ∀ s ∈ c :: rest, dlookup s.properties k = some v)
    (hnod : ∀ s ∈ c :: rest, (s.properties.map Prod.fst).Nodup) :
    (computeAudit config_id (c :: rest)).filter (fun e => e.key == k)
      = [⟨c.version, config_id, "ADDED", k, v, none⟩] := by
  have hc : dlookup c.properties k = some v := hall c (List.mem_cons_self _ _)
  have hcn : (c.properties.map Prod.fst).Nodup := hnod c (List.mem_cons_self _ _)
  show (auditGroup config_id [] c
      ++ _config_diff config_id rest c.properties).filter (fun e => e.key == k) = _
  rw [List.filter_append]
  have h2 : (_config_diff config_id rest c.properties).filter
      (fun e => e.key == k) = [] := by
    rw [List.filter_eq_nil_iff]
    intro e he hbeq
    exact no_key_events_of_stable config_id k v rest c.properties hc
      (fun s hs => hall s (List.mem_cons_of_mem _ hs))
      (fun s hs => hnod s (List.mem_cons_of_mem _ hs)) e he (eq_of_beq hbeq)
  rw [h2, List.append_nil]
  show (diffStepAC config_id [] c ++ diffStepR config_id [] c).filter _ = _
  rw [show diffStepR config_id [] c = [] from rfl, List.append_nil,
    diffStepAC_nil, List.filter_map]
  have h3 : c.properties.filter
      ((fun (e : AuditEvent) => e.key == k) ∘
        (fun kv => ⟨c.version, config_id, "ADDED", kv.1, kv.2, none⟩))
      = c.properties.filter (fun kv => kv.1 == k) := by
    apply List.filter_congr
    intro kv _
    rfl
  rw [h3, filter_key_eq_of_nodup c.properties hcn hc]
  rfl

theorem c3_amended_stable_key_witness :
    (∀ s ∈ [(⟨1, [("a", "1"), ("b", "2")]⟩ : ConfigSnapshot),
        ⟨2, [("a", "1")]⟩], dlookup s.properties "a" = some "1")
    ∧ (computeAudit "t" [⟨1, [("a", "1"), ("b", "2")]⟩,
          ⟨2, [("a", "1")]⟩]).filter (fun e => e.key == "a")
        = [⟨1, "t", "ADDED", "a", "1", none⟩] :=
  ⟨by decide,
    c3_amended_stable_key "t" "a" "1" ⟨1, [("a", "1"), ("b", "2")]⟩
      [⟨2, [("a", "1")]⟩] (by decide) (by decide)⟩

/-! ### Steady-state helpers -/

theorem config_diff_nil_of_agree (config_id : String) :
    ∀ (configs : List ConfigSnapshot) (prev_config : List (String × String)),
      (∀ s ∈ configs, ∀ k, dlookup s.properties k = dlookup prev_config k) →
      (∀ s ∈ configs, (s.properties.map Prod.fst).Nodup) →
      _config_diff config_id configs prev_config = []
  | [], _, _, _ => rfl
  | conf :: rest, prev_config, hagree, hnod => by
      have hconf : ∀ k, dlookup conf.properties k = dlookup prev_config k :=
        hagree conf (List.mem_cons_self _ _)
      have hAC : diffStepAC config_id prev_config conf = [] := by
        rw [diffStepAC, List.filterMap_eq_nil_iff]
        intro kv hkv
        have hself : dlookup conf.properties kv.1 = some kv.2 :=
          dlookup_eq_some_of_mem_nodup (hnod conf (List.mem_cons_self _ _)) hkv
        have hp : dlookup prev_config kv.1 = some kv.2 := by
          rw [← hconf kv.1]
          exact hself
        simp [hp]
      have hR : diffStepR config_id prev_config conf = [] := by
        rw [diffStepR, List.filterMap_eq_nil_iff]
        intro kv hkv
        have hs : (dlookup prev_config kv.1).isSome := dlookup_isSome_of_mem hkv
        rw [← hconf kv.1] at hs
        cases hcc : dlookup conf.properties kv.1 with
        | none => rw [hcc] at hs; exact Bool.noConfusion hs
        | some pv => simp [hcc]
      show (diffStepAC config_id prev_config conf
          ++ diffStepR config_id prev_config conf)
          ++ _config_diff config_id rest conf.properties = []
      rw [hAC, hR, List.append_nil, List.nil_append]
      refine config_diff_nil_of_agree config_id rest conf.properties ?_ ?_
      · intro s hs k
        rw [hagree s (List.mem_cons_of_mem _ hs) k, ← hconf k]
      · intro s hs
        exact hnod s (List.mem_cons_of_mem _ hs)

/-- C4: when no property ever changes value across the sequence (every key
resolves identically — present with the same value, or absent — in every
snapshot, all snapshots having duplicate-free keys), every event in the
audit log is an ADDED event; in particular versions after the first
contribute no CHANGED and no REMOVED events. -/
theorem c4_no_change_only_added (config_id : String)
    (configs : List ConfigSnapshot)
    (hagree : ∀ s ∈ configs, ∀ t ∈ configs, ∀ k,
      dlookup s.properties k = dlookup t.properties k)
    (hnod : ∀ s ∈ configs, (s.properties.map Prod.fst).Nodup) :
    ∀ e ∈ computeAudit config_id configs, e.action = "ADDED" := by
  cases configs with
  | nil =>
      intro e he
      exact absurd he (List.not_mem_nil _)
  | cons c rest =>
      intro e he
      have he' : e ∈ (diffStepAC config_id [] c ++ diffStepR config_id [] c)
          ++ _config_diff config_id rest c.properties := he
      have hrec : _config_diff config_id rest c.properties = [] := by
        refine config_diff_nil_of_agree config_id rest c.properties ?_ ?_
        · intro s hs k
          exact hagree s (List.mem_cons_of_mem _ hs) c (List.mem_cons_self _ _) k
        · intro s hs
          exact hnod s (List.mem_cons_of_mem _ hs)
      rw [hrec, List.append_nil] at he'
      rcases List.mem_append.mp he' with hAC | hR
      · rcases mem_diffStepAC.mp hAC with ⟨kv, -, ⟨-, rfl⟩ | ⟨pv, hdl, -, -⟩⟩
        · rfl
        · exact absurd hdl (by simp [dlookup])
      · rcases mem_diffStepR.mp hR with ⟨kv, hkv, -, -⟩
        exact absurd hkv (List.not_mem_nil _)

theorem c4_no_change_only_added_witness :
    (⟨1, "t", "ADDED", "a", "1", none⟩ : AuditEvent).action = "ADDED" :=
  c4_no_change_only_added "t" [⟨1, [("a", "1")]⟩, ⟨2, [("a", "1")]⟩]
    (by
      intro s hs t ht k
      simp only [List.mem_cons, List.not_mem_nil, or_false] at hs ht
      rcases hs with rfl | rfl <;> rcases ht with rfl | rfl <;> rfl)
    (by decide)
    ⟨1, "t", "ADDED", "a", "1", none⟩ (by decide)

/-- C5: rendering an ADDED or REMOVED event yields exactly
`{type}: version {version} - {action} - {key} - {value}`, and rendering a
CHANGED event (whose dict carries `old_value`) yields exactly
`{type}: version {version} - {action} - {key} - {old_value} => {value}`,
with no extra whitespace. -/
theorem c5_render_templates (e : AuditEvent) :
    ((e.action = "ADDED" ∨ e.action = "REMOVED") →
      _get_audit_log_string (some e)
        = .ok (e.type ++ ": version " ++ toString e.version ++ " - "
            ++ e.action ++ " - " ++ e.key ++ " - " ++ e.value))
    ∧ (∀ ov, e.action = "CHANGED" → e.old_value = some ov →
      _get_audit_log_string (some e)
        = .ok (e.type ++ ": version " ++ toString e.version ++ " - "
            ++ e.action ++ " - " ++ e.key ++ " - " ++ ov ++ " => "
            ++ e.value)) := by
  constructor
  · intro h
    have hne : e.action ≠ "CHANGED" := by
      rcases h with h | h <;> rw [h] <;> decide
    simp only [_get_audit_log_string]
    rw [if_pos hne]
  · intro ov hch hov
    simp only [_get_audit_log_string]
    rw [if_neg (show ¬e.action ≠ "CHANGED" from fun hne => hne hch), hov]

theorem c5_render_templates_witness :
    _get_audit_log_string (some ⟨3, "core-site", "ADDED", "k1", "v1", none⟩)
      = .ok "core-site: version 3 - ADDED - k1 - v1" :=
  ((c5_render_templates ⟨3, "core-site", "ADDED", "k1", "v1", none⟩).1
    (Or.inl rfl)).trans (by rfl)

/-- C10: a falsy argument to `_get_audit_log_string` (a `None`/empty event,
modelled as `none`) renders as the empty string without raising; only truthy
events reach the templates. -/
theorem c10_falsy_renders_empty : _get_audit_log_string none = .ok "" := rfl

/-! ### Sorter helpers -/

theorem keyedList_ok (sortKey : String) :
    ∀ (items : List VersionItem) (kl : List (Nat × VersionItem)),
      keyedList sortKey items = .ok kl →
      kl.map Prod.snd = items
        ∧ ∀ p ∈ kl, dlookup p.2.fields sortKey = some p.1
  | [], kl, h => by
      cases Except.ok.inj h
      exact ⟨rfl, by simp⟩
  | it :: rest, kl, h => by
      simp only [keyedList] at h
      cases hdl : dlookup it.fields sortKey with
      | none => rw [hdl] at h; exact Except.noConfusion h
      | some v =>
          rw [hdl] at h
          cases hrec : keyedList sortKey rest with
          | error msg => rw [hrec] at h; exact Except.noConfusion h
          | ok ds =>
              rw [hrec] at h
              cases Except.ok.inj h
              obtain ⟨hmap, hkeys⟩ := keyedList_ok sortKey rest ds hrec
              refine ⟨by simp [hmap], ?_⟩
              intro p hp
              rcases List.mem_cons.mp hp with rfl | hp'
              · exact hdl
              · exact hkeys p hp'

theorem keyedList_isSome (sortKey : String) :
    ∀ (items : List VersionItem),
      (∀ it ∈ items, (dlookup it.fields sortKey).isSome) →
      ∃ kl, keyedList sortKey items = .ok kl
  | [], _ => ⟨[], rfl⟩
  | it :: rest, h => by
      cases hdl : dlookup it.fields sortKey with
      | none =>
          have := h it (List.mem_cons_self _ _)
          rw [hdl] at this
          exact Bool.noConfusion this
      | some v =>
          obtain ⟨kl, hkl⟩ := keyedList_isSome sortKey rest
            (fun x hx => h x (List.mem_cons_of_mem _ hx))
          exact ⟨(v, it) :: kl, by simp only [keyedList]; rw [hdl, hkl]⟩

theorem keyedList_error (sortKey : String) :
    ∀ (items : List VersionItem),
      (∃ it ∈ items, dlookup it.fields sortKey = none) →
      keyedList sortKey items = .error "KeyError"
  | [], h => by
      obtain ⟨it, hmem, -⟩ := h
      exact absurd hmem (List.not_mem_nil _)
  | it :: rest, h => by
      simp only [keyedList]
      cases hdl : dlookup it.fields sortKey with
      | none => rfl
      | some v =>
          obtain ⟨x, hmem, hx⟩ := h
          rcases List.mem_cons.mp hmem with rfl | hmem'
          · rw [hdl] at hx
            exact Option.noConfusion hx
          · rw [keyedList_error sortKey rest ⟨x, hmem', hx⟩]

theorem bleFst_trans : ∀ (a b c : Nat × VersionItem),
    Nat.ble a.1 b.1 → Nat.ble b.1 c.1 → Nat.ble a.1 c.1 := by
  intro a b c hab hbc
  simp only [Nat.ble_eq] at hab hbc ⊢
  omega

theorem bleFst_total : ∀ (a b : Nat × VersionItem),
    Nat.ble a.1 b.1 || Nat.ble b.1 a.1 := by
  intro a b
  rcases Nat.le_total a.1 b.1 with h | h
  · simp [Nat.ble_eq, h]
  · simp [Nat.ble_eq, h]

/-- C6: Python's `sorted(items, key=lambda item: item[sort_version_by])`
(default key: the `version` field) returns a permutation of the input that
is ascending in the sort key and stable on ties (elements with equal key
keep their input order, stated via `filter`); an item lacking the sort key
makes the sort fail with `KeyError` instead of being silently ordered. -/
theorem c6_version_sorter (sortKey : String) (items : List VersionItem) :
    sort_version_by = "version"
    ∧ ((∀ it ∈ items, (dlookup it.fields sortKey).isSome) →
        ∃ out, sortedByKey sortKey items = .ok out
          ∧ out.Perm items
          ∧ out.Pairwise (fun a b => ∀ va vb,
              dlookup a.fields sortKey = some va →
              dlookup b.fields sortKey = some vb → va ≤ vb)
          ∧ ∀ v, out.filter (fun it => dlookup it.fields sortKey == some v)
              = items.filter (fun it => dlookup it.fields sortKey == some v))
    ∧ ((∃ it ∈ items, dlookup it.fields sortKey = none) →
        sortedByKey sortKey items = .error "KeyError") := by
  refine ⟨rfl, ?_, ?_⟩
  · intro hall
    obtain ⟨kl, hkl⟩ := keyedList_isSome sortKey items hall
    obtain ⟨hmap, hkeys⟩ := keyedList_ok sortKey items kl hkl
    refine ⟨(kl.mergeSort fun a b => Nat.ble a.1 b.1).map Prod.snd,
      by simp only [sortedByKey]; rw [hkl], ?_, ?_, ?_⟩
    · exact hmap ▸ (List.mergeSort_perm kl _).map Prod.snd
    · have hsor := List.sorted_mergeSort bleFst_trans bleFst_total kl
      have hsor' : (kl.mergeSort fun a b => Nat.ble a.1 b.1).Pairwise
          (fun p q : Nat × VersionItem => ∀ va vb,
            dlookup p.2.fields sortKey = some va →
            dlookup q.2.fields sortKey = some vb → va ≤ vb) := by
        refine hsor.imp_of_mem ?_
        intro p q hp hq hle va vb hva hvb
        rw [hkeys p (List.mem_mergeSort.mp hp)] at hva
        rw [hkeys q (List.mem_mergeSort.mp hq)] at hvb
        cases Option.some.inj hva
        cases Option.some.inj hvb
        exact Nat.le_of_ble_eq_true hle
      exact List.pairwise_map.mpr hsor'
    · intro v
      rw [List.filter_map]
      have hfil1 : ((kl.mergeSort fun a b => Nat.ble a.1 b.1).filter
            ((fun it => dlookup it.fields sortKey == some v) ∘ Prod.snd))
          = (kl.mergeSort fun a b => Nat.ble a.1 b.1).filter
            (fun p => p.1 == v) := by
        apply List.filter_congr
        intro p hp
        have := hkeys p (List.mem_mergeSort.mp hp)
        simp only [Function.comp, this]
        by_cases hv : p.1 = v
        · simp [hv]
        · simp [hv]
      have hfil2 : kl.filter
            ((fun it => dlookup it.fields sortKey == some v) ∘ Prod.snd)
          = kl.filter (fun p => p.1 == v) := by
        apply List.filter_congr
        intro p hp
        have := hkeys p hp
        simp only [Function.comp, this]
        by_cases hv : p.1 = v
        · simp [hv]
        · simp [hv]
      have hstable : (kl.mergeSort fun a b => Nat.ble a.1 b.1).filter
            (fun p => p.1 == v) = kl.filter (fun p => p.1 == v) := by
        have hc : ∀ p ∈ kl.filter (fun p : Nat × VersionItem => p.1 == v),
            p.1 = v := by
          intro p hp
          have := (List.mem_filter.mp hp).2
          exact eq_of_beq this
        have hpair : (kl.filter (fun p : Nat × VersionItem => p.1 == v)).Pairwise
            (fun a b => Nat.ble a.1 b.1) := by
          refine List.pairwise_of_forall_mem_list ?_
          intro a ha b hb
          rw [hc a ha, hc b hb]
          simp [Nat.ble_eq]
        have hsub : List.Sublist (kl.filter (fun p : Nat × VersionItem => p.1 == v))
            (kl.mergeSort fun a b => Nat.ble a.1 b.1) :=
          List.sublist_mergeSort bleFst_trans bleFst_total hpair
            (List.filter_sublist kl)
        have hceq : (kl.filter (fun p : Nat × VersionItem => p.1 == v)).filter
            (fun p => p.1 == v) = kl.filter (fun p : Nat × VersionItem => p.1 == v) := by
          rw [List.filter_eq_self]
          intro a ha
          exact (List.mem_filter.mp ha).2
        have hsub2 : List.Sublist (kl.filter (fun p : Nat × VersionItem => p.1 == v))
            ((kl.mergeSort fun a b => Nat.ble a.1 b.1).filter
              (fun p => p.1 == v)) := by
          have := hsub.filter (fun p : Nat × VersionItem => p.1 == v)
          rwa [hceq] at this
        have hperm : ((kl.mergeSort fun a b => Nat.ble a.1 b.1).filter
              (fun p => p.1 == v)).Perm
            (kl.filter (fun p : Nat × VersionItem => p.1 == v)) :=
          (List.mergeSort_perm kl _).filter _
        exact (hsub2.eq_of_length hperm.length_eq.symm).symm
      rw [hfil1, hstable, ← hfil2, ← List.filter_map, hmap]
  · intro hmiss
    simp only [sortedByKey]
    rw [keyedList_error sortKey items hmiss]

theorem c6_version_sorter_witness :
    ∃ out, sortedByKey "version"
        [⟨[("version", 2)], "h2"⟩, ⟨[("version", 1)], "h1"⟩] = .ok out
      ∧ out.Perm [⟨[("version", 2)], "h2"⟩, ⟨[("version", 1)], "h1"⟩]
      ∧ out.Pairwise (fun a b => ∀ va vb,
          dlookup a.fields "version" = some va →
          dlookup b.fields "version" = some vb → va ≤ vb)
      ∧ ∀ v, out.filter (fun it => dlookup it.fields "version" == some v)
          = ([⟨[("version", 2)], "h2"⟩,
              ⟨[("version", 1)], "h1"⟩] : List VersionItem).filter
              (fun it => dlookup it.fields "version" == some v) :=
  (c6_version_sorter "version"
    [⟨[("version", 2)], "h2"⟩, ⟨[("version", 1)], "h1"⟩]).2.1 (by decide)

/-- C7 counterexample: a version-listing response with non-success status
500 whose body parses (an error JSON without a usable `items` list) raises
no error at all — `_retrieve_config_versions` returns an empty version list
and the whole run continues to (empty) output instead of aborting. -/
theorem c7_counterexample :
    _retrieve_config_versions ⟨500, some ⟨none⟩⟩ = .ok []
    ∧ execute ⟨500, some ⟨none⟩⟩
        (fun _ => ⟨200, some ⟨some [⟨1, [("a", "1")]⟩]⟩⟩) "t" = .ok [] :=
  ⟨rfl, rfl⟩

/-- C7 amended: `_retrieve_config_versions` never inspects the HTTP status
code; it fails — fatally, aborting `execute` before any diffing or output —
exactly on a malformed response body (uncaught `ValueError` from
`r.json()`; a missing sort key can still fail later in the sort), while a
non-success status with a parseable body is processed like a success (an
absent `items` key just leaves the version list empty). -/
theorem c7_amended_listing_failure (st st₂ : Nat) (b : Option VersionsBody)
    (fetch : String → HttpResponse ConfigsBody) (config_id : String) :
    (_retrieve_config_versions ⟨st, b⟩ = _retrieve_config_versions ⟨st₂, b⟩)
    ∧ (b = none → _retrieve_config_versions ⟨st, b⟩ = .error "ValueError"
        ∧ execute ⟨st, b⟩ fetch config_id = .error "ValueError")
    ∧ (∀ vb, b = some vb → vb.items = none →
        _retrieve_config_versions ⟨st, b⟩ = .ok []) := by
  refine ⟨rfl, ?_, ?_⟩
  · rintro rfl
    exact ⟨rfl, rfl⟩
  · rintro ⟨items⟩ rfl hitems
    cases hitems
    rfl

theorem c7_amended_listing_failure_witness :
    _retrieve_config_versions ⟨500, (none : Option VersionsBody)⟩
        = .error "ValueError"
    ∧ execute ⟨500, none⟩ (fun _ => ⟨200, none⟩) "t" = .error "ValueError" :=
  (c7_amended_listing_failure 500 404 none (fun _ => ⟨200, none⟩) "t").2.1 rfl

/-- C8: a per-version fetch response with status other than 200 (hence any
non-success status) is skipped silently — no retry, no error, no event —
and processing continues, so when every status-200 response carries a
well-formed body with a non-empty `items` array, the fetched snapshot list
is exactly the first item of each 200-response, in input (sorted) order. -/
theorem c8_fetch_skips_failures (rs : List (HttpResponse ConfigsBody))
    (h : ∀ r ∈ rs, r.status_code = 200 →
      ∃ snap tail, r.body = some ⟨some (snap :: tail)⟩) :
    _retrieve_configs rs = .ok (rs.filterMap fun r =>
      if r.status_code = 200 then
        r.body.bind fun cb => cb.items.bind fun its => its.head?
      else none) := by
  induction rs with
  | nil => rfl
  | cons r rest ih =>
      have hrest := ih (fun x hx => h x (List.mem_cons_of_mem _ hx))
      by_cases hst : r.status_code = 200
      · obtain ⟨snap, tail, hbody⟩ := h r (List.mem_cons_self _ _) hst
        simp only [_retrieve_configs, List.filterMap_cons]
        rw [hst, hbody, hrest]
        rfl
      · simp only [_retrieve_configs, List.filterMap_cons]
        rw [if_pos hst, hrest, if_neg hst]

theorem c8_fetch_skips_failures_witness :
    _retrieve_configs
        [⟨200, some ⟨some [⟨1, [("a", "1")]⟩]⟩⟩, ⟨404, some ⟨none⟩⟩,
          ⟨200, some ⟨some [⟨3, [("b", "2")]⟩]⟩⟩]
      = .ok (([⟨200, some ⟨some [⟨1, [("a", "1")]⟩]⟩⟩, ⟨404, some ⟨none⟩⟩,
          ⟨200, some ⟨some [⟨3, [("b", "2")]⟩]⟩⟩] :
            List (HttpResponse ConfigsBody)).filterMap fun r =>
        if r.status_code = 200 then
          r.body.bind fun cb => cb.items.bind fun its => its.head?
        else none) :=
  c8_fetch_skips_failures
    [⟨200, some ⟨some [⟨1, [("a", "1")]⟩]⟩⟩, ⟨404, some ⟨none⟩⟩,
      ⟨200, some ⟨some [⟨3, [("b", "2")]⟩]⟩⟩]
    (by
      intro r hr h200
      simp only [List.mem_cons, List.not_mem_nil, or_false] at hr
      rcases hr with rfl | rfl | rfl
      · exact ⟨⟨1, [("a", "1")]⟩, [], rfl⟩
      · exact absurd h200 (by decide)
      · exact ⟨⟨3, [("b", "2")]⟩, [], rfl⟩)

/-- C9: the diff engine is deterministic — two runs on identical snapshot
sequences produce identical audit logs, and identical rendered (byte-level)
output. -/
theorem c9_diff_deterministic (config_id : String)
    (configs₁ configs₂ : List ConfigSnapshot) (h : configs₁ = configs₂) :
    computeAudit config_id configs₁ = computeAudit config_id configs₂
    ∧ renderLog (computeAudit config_id configs₁)
        = renderLog (computeAudit config_id configs₂) := by
  subst h
  exact ⟨rfl, rfl⟩

theorem c9_diff_deterministic_witness :
    computeAudit "t" [⟨1, [("a", "1")]⟩] = computeAudit "t" [⟨1, [("a", "1")]⟩]
    ∧ renderLog (computeAudit "t" [⟨1, [("a", "1")]⟩])
        = renderLog (computeAudit "t" [⟨1, [("a", "1")]⟩]) :=
  c9_diff_deterministic "t" [⟨1, [("a", "1")]⟩] [⟨1, [("a", "1")]⟩] rfl

end AmbariAudit
